import Mathlib

/-!
Shallow embedding of the CORS Origin Guard of `cmd/create-issue/main.go`
(the allow-list builder `configureAllowedOrigins`, the normalizer
`normalizeOrigin`, the splitter `splitOriginCandidates` and the decision
function `isOriginAllowed`), together with a model of the parts of Go's
`net/url` and `strings` packages that those functions call.

Strings are modelled through their character lists; Go byte-level
operations are modelled character-wise, which agrees with the byte-level
code on ASCII data (origins are ASCII).
-/

set_option maxRecDepth 10000

/-- Model of Go `unicode.IsSpace` restricted to the Latin-1 range
(tab, LF, VT, FF, CR, space, NEL, NBSP); the higher Unicode space
code points are not relevant to origin strings. -/
def goIsSpace (c : Char) : Bool :=
  c.toNat = 9 || c.toNat = 10 || c.toNat = 11 || c.toNat = 12 ||
  c.toNat = 13 || c.toNat = 32 || c.toNat = 133 || c.toNat = 160

/-- Drop the longest suffix of `l` all of whose characters satisfy `p`. -/
def dropTrailingWhile (p : Char → Bool) (l : List Char) : List Char :=
  (l.reverse.dropWhile p).reverse

/-- Model of Go `strings.TrimSpace` on character lists. -/
def trimSpaceList (l : List Char) : List Char :=
  dropTrailingWhile goIsSpace (l.dropWhile goIsSpace)

/-- Model of Go `strings.TrimSpace`. -/
def trimSpace (s : String) : String :=
  String.mk (trimSpaceList s.data)

/-- ASCII lower-casing of one character (Go `strings.ToLower` on ASCII). -/
def toLowerChar (c : Char) : Char :=
  if 65 ≤ c.toNat ∧ c.toNat ≤ 90 then Char.ofNat (c.toNat + 32) else c

/-- Model of Go `strings.ToLower` (ASCII range). -/
def toLower (s : String) : String :=
  String.mk (s.data.map toLowerChar)

/-- The separator set of `splitOriginCandidates`:
comma, newline, carriage return, tab and semicolon. -/
def isSepChar (c : Char) : Bool :=
  c == ',' || c == '\n' || c == '\r' || c == '\t' || c == ';'

/-- Model of Go `strings.FieldsFunc`: maximal runs of characters not
satisfying `p`, in order; `acc` holds the current run reversed. -/
def fieldsFuncAux (p : Char → Bool) : List Char → List Char → List (List Char)
  | acc, [] => if acc.isEmpty then [] else [acc.reverse]
  | acc, c :: cs =>
    if p c then
      if acc.isEmpty then fieldsFuncAux p [] cs
      else acc.reverse :: fieldsFuncAux p [] cs
    else fieldsFuncAux p (c :: acc) cs

/-- Model of Go `strings.FieldsFunc` on strings. -/
def fieldsFunc (p : Char → Bool) (s : String) : List String :=
  (fieldsFuncAux p [] s.data).map String.mk

/-- Embedding of `splitOriginCandidates` from `cmd/create-issue/main.go`:
empty/whitespace input gives `[]`; otherwise split on the separator set,
trim each field and keep the non-empty ones (the Go loop appending
trimmed non-empty fields is a filterMap). -/
def splitOriginCandidates (raw : String) : List String :=
  if trimSpace raw = "" then []
  else
    (fieldsFunc isSepChar raw).filterMap (fun candidate =>
      let candidate := trimSpace candidate
      if candidate = "" then none else some candidate)

/-- ASCII letter test (Go `'a' <= c && c <= 'z' || 'A' <= c && c <= 'Z'`). -/
def isAlphaChar (c : Char) : Bool :=
  (97 ≤ c.toNat ∧ c.toNat ≤ 122) ∨ (65 ≤ c.toNat ∧ c.toNat ≤ 90)

/-- ASCII digit test. -/
def isDigitChar (c : Char) : Bool :=
  48 ≤ c.toNat ∧ c.toNat ≤ 57

/-- Model of Go `net/url`'s `ishex`. -/
def isHexChar (c : Char) : Bool :=
  isDigitChar c ∨ (97 ≤ c.toNat ∧ c.toNat ≤ 102) ∨ (65 ≤ c.toNat ∧ c.toNat ≤ 70)

/-- Model of Go `net/url`'s `unhex` (0 on non-hex input, never reached). -/
def unhex (c : Char) : Nat :=
  if isDigitChar c then c.toNat - 48
  else if 97 ≤ c.toNat ∧ c.toNat ≤ 102 then c.toNat - 87
  else if 65 ≤ c.toNat ∧ c.toNat ≤ 70 then c.toNat - 55
  else 0

/-- Characters Go's `shouldEscape` rejects in the host component: anything
other than alphanumerics, the RFC 3986 unreserved marks and the sub-delims
(plus `:[]<>"`) that `net/url` tolerates in hosts. -/
def shouldEscapeHost (c : Char) : Bool :=
  !(isAlphaChar c || isDigitChar c ||
    ['-', '_', '.', '~', '!', '$', '&', '\'', '(', ')', '*', '+', ',',
     ';', '=', ':', '[', ']', '<', '>', '"'].contains c)

/-- Model of Go `net/url`'s `validUserinfo`. -/
def validUserinfo (l : List Char) : Bool :=
  l.all (fun c => isAlphaChar c || isDigitChar c ||
    ['-', '.', '_', ':', '~', '!', '$', '&', '\'', '(', ')', '*', '+', ',',
     ';', '=', '%', '@'].contains c)

/-- Model of Go `net/url`'s `validOptionalPort`: empty, or a colon followed
by decimal digits only. -/
def validOptionalPort (l : List Char) : Bool :=
  match l with
  | [] => true
  | c :: rest => c == ':' && rest.all isDigitChar

/-- Checks that every `%` in the list heads a valid two-hex-digit escape,
as Go's `unescape` does for the userinfo, path and fragment components. -/
def percentCheck : List Char → Except String Unit
  | [] => Except.ok ()
  | '%' :: a :: b :: rest =>
    if isHexChar a && isHexChar b then percentCheck rest
    else Except.error "invalid URL escape"
  | '%' :: _ => Except.error "invalid URL escape"
  | _ :: rest => percentCheck rest

/-- Model of Go `unescape(host, encodeHost)`: decodes `%XX` escapes,
rejecting escapes of ASCII bytes other than `%25` and rejecting raw ASCII
characters the host component does not allow. -/
def unescapeHost : List Char → Except String (List Char)
  | [] => Except.ok []
  | '%' :: a :: b :: rest =>
    if isHexChar a && isHexChar b then
      if unhex a < 8 && !(a == '2' && b == '5') then
        Except.error "host component contains invalid percent encoding"
      else
        match unescapeHost rest with
        | Except.error e => Except.error e
        | Except.ok r => Except.ok (Char.ofNat (unhex a * 16 + unhex b) :: r)
    else Except.error "invalid URL escape"
  | '%' :: _ => Except.error "invalid URL escape"
  | c :: rest =>
    if c.toNat < 128 && shouldEscapeHost c then
      Except.error "invalid character in host name"
    else
      match unescapeHost rest with
      | Except.error e => Except.error e
      | Except.ok r => Except.ok (c :: r)

/-- Splits `l` at the last occurrence of `c`: `l = before ++ c :: after`
with `c` not in `after`; `none` when `c` does not occur. -/
def splitAtLast (c : Char) (l : List Char) : Option (List Char × List Char) :=
  let after := (l.reverse.takeWhile (fun x => x != c)).reverse
  if after.length = l.length then none
  else some (l.take (l.length - after.length - 1), after)

/-- First character test. -/
def leadChar (l : List Char) (c : Char) : Bool :=
  match l with
  | [] => false
  | x :: _ => x == c

/-- Does the list start with two slashes? -/
def lead2Slash (l : List Char) : Bool :=
  match l with
  | '/' :: '/' :: _ => true
  | _ => false

/-- Does the list start with three slashes? -/
def lead3Slash (l : List Char) : Bool :=
  match l with
  | '/' :: '/' :: '/' :: _ => true
  | _ => false

/-- Model of Go `net/url`'s `parseHost` (the IPv6 zone sub-case is modelled
with the same escaping rules as the rest of the host). -/
def parseHost (host : List Char) : Except String String :=
  if leadChar host '[' then
    match splitAtLast ']' host with
    | none => Except.error "missing right bracket in host"
    | some (_, after) =>
      if !validOptionalPort after then Except.error "invalid port after host"
      else
        match unescapeHost host with
        | Except.error e => Except.error e
        | Except.ok r => Except.ok (String.mk r)
  else
    match splitAtLast ':' host with
    | some (_, after) =>
      if !validOptionalPort (':' :: after) then Except.error "invalid port after host"
      else
        match unescapeHost host with
        | Except.error e => Except.error e
        | Except.ok r => Except.ok (String.mk r)
    | none =>
      match unescapeHost host with
      | Except.error e => Except.error e
      | Except.ok r => Except.ok (String.mk r)

/-- Model of Go `net/url`'s `parseAuthority`: the host is everything after
the last `@`; the userinfo before it must pass `validUserinfo` and have
well-formed escapes. -/
def parseAuthority (authority : List Char) : Except String String :=
  match splitAtLast '@' authority with
  | none => parseHost authority
  | some (userinfo, hostpart) =>
    match parseHost hostpart with
    | Except.error e => Except.error e
    | Except.ok host =>
      if !validUserinfo userinfo then Except.error "net/url: invalid userinfo"
      else
        match percentCheck userinfo with
        | Except.error e => Except.error e
        | Except.ok _ => Except.ok host

/-- Model of Go `net/url`'s `getScheme`: `ok (some (scheme, rest))` when a
scheme terminated by `:` is present, `ok none` when the input has no scheme
(the caller keeps the whole input), error when `:` comes first. -/
def getSchemeAux (acc : List Char) : List Char → Except String (Option (List Char × List Char))
  | [] => Except.ok none
  | c :: cs =>
    if isAlphaChar c then getSchemeAux (c :: acc) cs
    else if isDigitChar c || c == '+' || c == '-' || c == '.' then
      if acc.isEmpty then Except.ok none else getSchemeAux (c :: acc) cs
    else if c == ':' then
      if acc.isEmpty then Except.error "missing protocol scheme"
      else Except.ok (some (acc.reverse, cs))
    else Except.ok none

/-- The scheme and host of a parsed URL; the only `url.URL` fields
`normalizeOrigin` reads. -/
structure GoURL where
  scheme : String
  host : String
deriving DecidableEq, Repr

/-- Control-byte test of Go `net/url`'s `stringContainsCTLByte`. -/
def ctlChar (c : Char) : Bool :=
  c.toNat < 32 || c.toNat = 127

/-- The authority / path part of Go `parse` after the scheme and query have
been removed: opaque rootless paths, the colon-in-first-segment check, the
`//authority` form and plain paths. -/
def parseAfterScheme (scheme : String) (rest0 : List Char) : Except String GoURL :=
  let rest := rest0.takeWhile (fun c => c != '?')
  if !leadChar rest '/' && scheme ≠ "" then Except.ok ⟨scheme, ""⟩
  else if !leadChar rest '/' && (rest.takeWhile (fun c => c != '/')).contains ':' then
    Except.error "first path segment in URL cannot contain colon"
  else if (scheme ≠ "" || !lead3Slash rest) && lead2Slash rest then
    let tail2 := rest.drop 2
    let authority := tail2.takeWhile (fun c => c != '/')
    let pathPart := tail2.dropWhile (fun c => c != '/')
    match parseAuthority authority with
    | Except.error e => Except.error e
    | Except.ok host =>
      match percentCheck pathPart with
      | Except.error e => Except.error e
      | Except.ok _ => Except.ok ⟨scheme, host⟩
  else
    match percentCheck rest with
    | Except.error e => Except.error e
    | Except.ok _ => Except.ok ⟨scheme, ""⟩

/-- Model of Go `net/url`'s internal `parse` with `viaRequest = false`,
applied to the pre-fragment part of the URL. -/
def parseMain (u : List Char) : Except String GoURL :=
  if u.any ctlChar then Except.error "net/url: invalid control character in URL"
  else if u = "*".data then Except.ok ⟨"", ""⟩
  else
    match getSchemeAux [] u with
    | Except.error e => Except.error e
    | Except.ok none => parseAfterScheme "" u
    | Except.ok (some (sch, rest)) => parseAfterScheme (toLower (String.mk sch)) rest

/-- Model of Go `url.Parse`: cut the fragment, parse the rest, then check
the fragment's escapes. -/
def urlParse (rawURL : String) : Except String GoURL :=
  let l := rawURL.data
  let u := l.takeWhile (fun c => c != '#')
  let frag := (l.dropWhile (fun c => c != '#')).drop 1
  match parseMain u with
  | Except.error e => Except.error e
  | Except.ok url =>
    if frag.isEmpty then Except.ok url
    else
      match percentCheck frag with
      | Except.error e => Except.error e
      | Except.ok _ => Except.ok url

/-- Strip one pair of surrounding square brackets (IPv6 literals). -/
def stripBrackets (l : List Char) : List Char :=
  if leadChar l '[' && l.getLast? == some ']' then (l.drop 1).dropLast else l

/-- Model of Go `net/url`'s `splitHostPort`: split a trailing valid
`:port`, then strip IPv6 brackets from the host part. -/
def splitHostPort (hostPort : String) : String × String :=
  let host := hostPort.data
  match splitAtLast ':' host with
  | some (before, after) =>
    if validOptionalPort (':' :: after) then
      (String.mk (stripBrackets before), String.mk after)
    else (String.mk (stripBrackets host), "")
  | none => (String.mk (stripBrackets host), "")

/-- Model of Go `url.URL.Hostname()` as a function of the `Host` field. -/
def urlHostname (host : String) : String :=
  (splitHostPort host).1

/-- Model of Go `url.URL.Port()` as a function of the `Host` field. -/
def urlPort (host : String) : String :=
  (splitHostPort host).2

deriving instance DecidableEq for Except

/-- The compiled-in default origin of `cmd/create-issue/main.go`. -/
def defaultAllowedOrigin : String := "https://ron-datadriven.github.io"

/-- The success value of `normalizeOrigin` from `cmd/create-issue/main.go`:
lower-case scheme and hostname, with the port appended to the host unless
it is absent or the scheme's default (80 for http, 443 for https). -/
def normalizedFromURL (parsed : GoURL) : String :=
  let scheme := toLower parsed.scheme
  let host := toLower (urlHostname parsed.host)
  let port := urlPort parsed.host
  let host :=
    if port ≠ "" ∧
        ¬ ((scheme = "http" ∧ port = "80") ∨ (scheme = "https" ∧ port = "443")) then
      host ++ ":" ++ port
    else host
  scheme ++ "://" ++ host

/-- Embedding of `normalizeOrigin`, continued: the full function. -/
def normalizeOrigin (value : String) : Except String String :=
  match urlParse (trimSpace value) with
  | Except.error e => Except.error e
  | Except.ok parsed =>
    if parsed.scheme = "" ∨ parsed.host = "" then
      Except.error "origen incompleto"
    else
      Except.ok (normalizedFromURL parsed)

/-- One accepted origin (`originEntry` of `cmd/create-issue/main.go`). -/
structure originEntry where
  raw : String
  normalized : String
deriving DecidableEq, Repr

/-- The mutable state the `addOrigin` closure of `configureAllowedOrigins`
works on: the `seen` set (modelled as a list of normalized strings), the
accumulated `entries` and the `allowAnyOrigin` global. -/
structure BuilderState where
  seen : List String
  entries : List originEntry
  allowAnyOrigin : Bool
deriving DecidableEq, Repr

/-- The `addOrigin` closure of `configureAllowedOrigins` after its opening
`value = strings.TrimSpace(value)`: drop empties; `*` turns on
`allowAnyOrigin`; normalization failure drops the candidate (only a log
line); a seen normalized value is skipped; otherwise the entry is appended
and recorded as seen. -/
def addOriginTrimmed (st : BuilderState) (value : String) : BuilderState :=
  if value = "" then st
  else if value = "*" then { st with allowAnyOrigin := true }
  else
    match normalizeOrigin value with
    | Except.error _ => st
    | Except.ok normalized =>
      if normalized ∈ st.seen then st
      else
        { st with
          entries := st.entries ++ [⟨value, normalized⟩],
          seen := normalized :: st.seen }

/-- Embedding of the `addOrigin` closure of `configureAllowedOrigins`. -/
def addOrigin (st : BuilderState) (value0 : String) : BuilderState :=
  addOriginTrimmed st (trimSpace value0)

/-- One `for` loop of `configureAllowedOrigins`: run `addOrigin` on each
candidate, breaking as soon as `allowAnyOrigin` is set. -/
def addOriginLoop (st : BuilderState) : List String → BuilderState
  | [] => st
  | c :: rest =>
    let st1 := addOrigin st c
    if st1.allowAnyOrigin then st1 else addOriginLoop st1 rest

/-- The configuration `configureAllowedOrigins` leaves behind: the
returned `entries` slice plus the `allowAnyOrigin` and `allowedOrigin`
globals it assigns. -/
structure ConfigResult where
  entries : List originEntry
  allowAnyOrigin : Bool
  allowedOrigin : String
deriving DecidableEq, Repr

/-- Embedding of `configureAllowedOrigins` from `cmd/create-issue/main.go`.
The fallback list (or, when it is empty, the compiled-in default) is
processed first, then the `current` (ALLOWED_ORIGIN) list, then — if no
entry survived — the forced default; any wildcard hit discards the entries
and reports `*`. `allowAnyOrigin0` is the value of the global flag when
the function is entered. The fallback list defaults to the compiled-in
default origin when it splits to nothing: -/
def effectiveFallbackCandidates (fallback : String) : List String :=
  let c := splitOriginCandidates fallback
  if c = [] then splitOriginCandidates defaultAllowedOrigin else c

/-- Embedding of `configureAllowedOrigins`, continued: the full builder. -/
def configureAllowedOrigins (current fallback : String) (allowAnyOrigin0 : Bool) : ConfigResult :=
  let st0 : BuilderState := ⟨[], [], allowAnyOrigin0⟩
  let st1 := addOriginLoop st0 (effectiveFallbackCandidates fallback)
  if st1.allowAnyOrigin then ⟨[], true, "*"⟩
  else
    let st2 := addOriginLoop st1 (splitOriginCandidates current)
    if st2.allowAnyOrigin then ⟨[], true, "*"⟩
    else
      let st3 :=
        if st2.entries = [] then
          addOriginLoop st2 (splitOriginCandidates defaultAllowedOrigin)
        else st2
      if st3.allowAnyOrigin then ⟨[], true, "*"⟩
      else if st3.entries = [] then ⟨[], false, ""⟩
      else
        ⟨st3.entries, false, String.intercalate "," (st3.entries.map (fun e => e.raw))⟩

/-- Embedding of `isOriginAllowed` from `cmd/create-issue/main.go`, with
the globals it reads (`allowAnyOrigin`, `allowedOriginEntries`) passed
explicitly. -/
def isOriginAllowed (allowAnyOrigin : Bool) (allowedOriginEntries : List originEntry)
    (origin : String) : Bool :=
  if allowAnyOrigin then true
  else if allowedOriginEntries.length = 0 then false
  else
    match normalizeOrigin origin with
    | Except.error _ => false
    | Except.ok normalizedOrigin =>
      allowedOriginEntries.any (fun entry => entry.normalized == normalizedOrigin)

/-! ### Helper lemmas about the builder state -/

theorem addOriginTrimmed_flag_mono (st : BuilderState) (v : String)
    (h : st.allowAnyOrigin = true) : (addOriginTrimmed st v).allowAnyOrigin = true := by
  simp only [addOriginTrimmed]
  split
  · exact h
  · split
    · rfl
    · split
      · exact h
      · split
        · exact h
        · exact h

theorem addOrigin_flag_mono (st : BuilderState) (v : String)
    (h : st.allowAnyOrigin = true) : (addOrigin st v).allowAnyOrigin = true :=
  addOriginTrimmed_flag_mono st (trimSpace v) h

theorem addOriginTrimmed_entries_extend (st : BuilderState) (v : String) :
    ∃ t, (addOriginTrimmed st v).entries = st.entries ++ t := by
  simp only [addOriginTrimmed]
  split
  · exact ⟨[], (List.append_nil _).symm⟩
  · split
    · exact ⟨[], (List.append_nil _).symm⟩
    · split
      · exact ⟨[], (List.append_nil _).symm⟩
      · split
        · exact ⟨[], (List.append_nil _).symm⟩
        · exact ⟨_, rfl⟩

theorem addOrigin_entries_extend (st : BuilderState) (v : String) :
    ∃ t, (addOrigin st v).entries = st.entries ++ t :=
  addOriginTrimmed_entries_extend st (trimSpace v)

theorem addOriginLoop_flag_mono (cs : List String) (st : BuilderState)
    (h : st.allowAnyOrigin = true) : (addOriginLoop st cs).allowAnyOrigin = true := by
  induction cs generalizing st with
  | nil => exact h
  | cons c rest ih =>
    simp only [addOriginLoop]
    split
    · assumption
    · exact absurd (addOrigin_flag_mono st c h) (by assumption)

theorem addOriginLoop_entries_extend (cs : List String) (st : BuilderState) :
    ∃ t, (addOriginLoop st cs).entries = st.entries ++ t := by
  induction cs generalizing st with
  | nil => exact ⟨[], by simp [addOriginLoop]⟩
  | cons c rest ih =>
    simp only [addOriginLoop]
    split
    · exact addOrigin_entries_extend st c
    · obtain ⟨t1, h1⟩ := addOrigin_entries_extend st c
      obtain ⟨t2, h2⟩ := ih (addOrigin st c)
      exact ⟨t1 ++ t2, by rw [h2, h1, List.append_assoc]⟩

theorem addOrigin_star (st : BuilderState) :
    (addOrigin st "*").allowAnyOrigin = true := by
  show (addOriginTrimmed st (trimSpace "*")).allowAnyOrigin = true
  have htrim : trimSpace "*" = "*" := by decide
  rw [htrim]
  simp [addOriginTrimmed]

theorem addOriginLoop_star (cs : List String) (st : BuilderState) (h : "*" ∈ cs) :
    (addOriginLoop st cs).allowAnyOrigin = true := by
  induction cs generalizing st with
  | nil => cases h
  | cons c rest ih =>
    simp only [addOriginLoop]
    rcases List.mem_cons.mp h with hc | hc
    · have hstar : (addOrigin st c).allowAnyOrigin = true := hc ▸ addOrigin_star st
      simp only [addOrigin] at hstar
      simp [hstar, addOrigin]
    · split
      · assumption
      · exact ih (addOrigin st c) hc

/-- Invariant of the builder state: normalized values of the accumulated
entries are pairwise distinct, every entry is recorded in `seen`, and each
entry's `normalized` field really is the normalization of its `raw`. -/
def GoodState (st : BuilderState) : Prop :=
  (st.entries.map (fun e => e.normalized)).Nodup ∧
  (∀ e ∈ st.entries, e.normalized ∈ st.seen) ∧
  (∀ e ∈ st.entries, normalizeOrigin e.raw = Except.ok e.normalized)

theorem trimSpaceList_idem (l : List Char) :
    trimSpaceList (trimSpaceList l) = trimSpaceList l := by
  have hdw : ∀ (m : List Char), (m.dropWhile goIsSpace).dropWhile goIsSpace
      = m.dropWhile goIsSpace := by
    intro m
    induction m with
    | nil => rfl
    | cons c cs ih =>
      by_cases h : goIsSpace c
      · simp [List.dropWhile_cons, h, ih]
      · simp [List.dropWhile_cons, h]
  have hhead : ∀ (m : List Char), m.dropWhile goIsSpace
      = (m.dropWhile goIsSpace).dropWhile goIsSpace := fun m => (hdw m).symm
  simp only [trimSpaceList, dropTrailingWhile]
  set m := l.dropWhile goIsSpace with hm
  set r := m.reverse.dropWhile goIsSpace with hr
  -- the trimmed list is `r.reverse`; its reverse is `r`, on which a
  -- further trailing trim is the identity
  have h1 : r.reverse.reverse.dropWhile goIsSpace = r := by
    rw [List.reverse_reverse, hr, hdw]
  -- a further leading trim is also the identity, because `r.reverse` is a
  -- Prefix of `m` and `m` starts with a non-space character (or is empty)
  have hpre : ∃ t, m = r.reverse ++ t := by
    have : ∃ t0, m.reverse = t0 ++ r := by
      refine ⟨m.reverse.takeWhile goIsSpace, ?_⟩
      rw [hr]
      exact (List.takeWhile_append_dropWhile ..).symm
    obtain ⟨t0, ht0⟩ := this
    refine ⟨t0.reverse, ?_⟩
    have := congrArg List.reverse ht0
    simpa using this
  have h2 : r.reverse.dropWhile goIsSpace = r.reverse := by
    obtain ⟨t, ht⟩ := hpre
    rcases hr' : r.reverse with _ | ⟨a, r2⟩
    · simp
    · have ha : ¬ (goIsSpace a = true) := by
        have hm2 : m = a :: (r2 ++ t) := by rw [ht, hr']; simp
        have := hdw l
        rw [← hm] at this
        rw [hm2] at this
        intro hga
        simp [List.dropWhile_cons, hga] at this
        -- dropping a space head cannot reproduce the longer list
        have hlen := congrArg List.length this
        simp only [List.length_cons] at hlen
        have hle := (List.dropWhile_suffix (l := r2 ++ t) goIsSpace).length_le
        omega
      simp [List.dropWhile_cons, ha]
  rw [h2, h1]

theorem trimSpace_idem (s : String) : trimSpace (trimSpace s) = trimSpace s := by
  simp [trimSpace, trimSpaceList_idem]

theorem addOriginTrimmed_good (st : BuilderState) (v : String) (h : GoodState st) :
    GoodState (addOriginTrimmed st v) := by
  obtain ⟨h1, h2, h3⟩ := h
  simp only [addOriginTrimmed]
  split
  · exact ⟨h1, h2, h3⟩
  · split
    · exact ⟨h1, h2, h3⟩
    · split
      · exact ⟨h1, h2, h3⟩
      · rename_i n hn
        split
        · exact ⟨h1, h2, h3⟩
        · rename_i hnotseen
          refine ⟨?_, ?_, ?_⟩
          · rw [List.map_append]
            rw [List.nodup_append]
            refine ⟨h1, List.nodup_singleton _, ?_⟩
            intro x hx hx2
            simp only [List.map_cons, List.map_nil, List.mem_singleton] at hx2
            subst hx2
            obtain ⟨e, he, hen⟩ := List.mem_map.mp hx
            exact hnotseen (hen ▸ h2 e he)
          · intro e he
            rcases List.mem_append.mp he with he | he
            · exact List.mem_cons_of_mem _ (h2 e he)
            · simp only [List.mem_singleton] at he
              subst he
              exact List.mem_cons_self _ _
          · intro e he
            rcases List.mem_append.mp he with he | he
            · exact h3 e he
            · simp only [List.mem_singleton] at he
              subst he
              exact hn

theorem addOrigin_good (st : BuilderState) (v : String) (h : GoodState st) :
    GoodState (addOrigin st v) :=
  addOriginTrimmed_good st (trimSpace v) h

theorem addOriginLoop_good (cs : List String) (st : BuilderState) (h : GoodState st) :
    GoodState (addOriginLoop st cs) := by
  induction cs generalizing st with
  | nil => exact h
  | cons c rest ih =>
    simp only [addOriginLoop]
    split
    · exact addOrigin_good st c h
    · exact ih (addOrigin st c) (addOrigin_good st c h)

theorem goodState_init (seen0 : List String) (b0 : Bool) :
    GoodState ⟨seen0, [], b0⟩ := by
  refine ⟨List.nodup_nil, ?_, ?_⟩ <;> intro e he <;> cases he

/-- The builder state after the fallback loop of `configureAllowedOrigins`. -/
def stage1 (fallback : String) (b0 : Bool) : BuilderState :=
  addOriginLoop ⟨[], [], b0⟩ (effectiveFallbackCandidates fallback)

/-- The builder state after the ALLOWED_ORIGIN loop. -/
def stage2 (current fallback : String) (b0 : Bool) : BuilderState :=
  addOriginLoop (stage1 fallback b0) (splitOriginCandidates current)

/-- The builder state after the forced-default loop (run only when no
entry survived the first two loops). -/
def stage3 (current fallback : String) (b0 : Bool) : BuilderState :=
  if (stage2 current fallback b0).entries = [] then
    addOriginLoop (stage2 current fallback b0) (splitOriginCandidates defaultAllowedOrigin)
  else stage2 current fallback b0

theorem configureAllowedOrigins_eq (current fallback : String) (b0 : Bool) :
    configureAllowedOrigins current fallback b0 =
      if (stage1 fallback b0).allowAnyOrigin then ⟨[], true, "*"⟩
      else if (stage2 current fallback b0).allowAnyOrigin then ⟨[], true, "*"⟩
      else if (stage3 current fallback b0).allowAnyOrigin then ⟨[], true, "*"⟩
      else if (stage3 current fallback b0).entries = [] then ⟨[], false, ""⟩
      else
        ⟨(stage3 current fallback b0).entries, false,
          String.intercalate ","
            ((stage3 current fallback b0).entries.map (fun e => e.raw))⟩ := rfl

theorem stage1_good (fallback : String) (b0 : Bool) : GoodState (stage1 fallback b0) :=
  addOriginLoop_good _ _ (goodState_init [] b0)

theorem stage2_good (current fallback : String) (b0 : Bool) :
    GoodState (stage2 current fallback b0) :=
  addOriginLoop_good _ _ (stage1_good fallback b0)

theorem stage3_good (current fallback : String) (b0 : Bool) :
    GoodState (stage3 current fallback b0) := by
  unfold stage3
  split
  · exact addOriginLoop_good _ _ (stage2_good current fallback b0)
  · exact stage2_good current fallback b0

theorem stage3_entries_extend (current fallback : String) (b0 : Bool) :
    ∃ t, (stage3 current fallback b0).entries =
      (stage1 fallback b0).entries ++ t := by
  obtain ⟨t1, h1⟩ := addOriginLoop_entries_extend (splitOriginCandidates current) (stage1 fallback b0)
  unfold stage3
  split
  · obtain ⟨t2, h2⟩ :=
      addOriginLoop_entries_extend (splitOriginCandidates defaultAllowedOrigin)
        (stage2 current fallback b0)
    refine ⟨t1 ++ t2, ?_⟩
    rw [h2]
    show (stage2 current fallback b0).entries ++ t2 = _
    rw [show (stage2 current fallback b0).entries
        = (stage1 fallback b0).entries ++ t1 from h1]
    rw [List.append_assoc]
  · exact ⟨t1, h1⟩

/-! ### Claim theorems -/

/-- C1: with the wildcard off and a non-empty entries list,
`isOriginAllowed` answers true exactly when the candidate normalizes
successfully to the `normalized` field of some entry; in particular a
candidate that fails to normalize (such as the empty string) is refused,
and a subdomain of an allowed host is refused. -/
theorem C1_allowDecision_exact_match :
    (∀ (entries : List originEntry) (c : String), entries ≠ [] →
      (isOriginAllowed false entries c = true ↔
        ∃ n, normalizeOrigin c = Except.ok n ∧ ∃ e ∈ entries, e.normalized = n)) ∧
    isOriginAllowed false [⟨"https://a.example.com", "https://a.example.com"⟩] "" = false ∧
    isOriginAllowed false [⟨"https://a.example.com", "https://a.example.com"⟩]
      "https://sub.a.example.com" = false := by
  refine ⟨?_, by decide, by decide⟩
  intro entries c h
  unfold isOriginAllowed
  rw [if_neg (by simp)]
  rw [if_neg (fun hlen => h (List.length_eq_zero.mp hlen))]
  cases hm : normalizeOrigin c with
  | error e => simp [hm]
  | ok n =>
    simp only [List.any_eq_true, beq_iff_eq, Except.ok.injEq]
    constructor
    · rintro ⟨x, hx, hxe⟩
      exact ⟨n, rfl, x, hx, hxe⟩
    · rintro ⟨n2, hn2, x, hx, hxe⟩
      exact ⟨x, hx, by rw [hxe, hn2]⟩

/-- Closed instance of C1: an allowed origin written with different case
and an explicit default port matches after normalization. -/
theorem C1_witness :
    isOriginAllowed false [⟨"https://a.example.com", "https://a.example.com"⟩]
      "https://A.example.com:443" = true := by
  refine (C1_allowDecision_exact_match.1 _ _ (by decide)).mpr ?_
  exact ⟨"https://a.example.com", by decide,
    ⟨"https://a.example.com", "https://a.example.com"⟩, by decide, rfl⟩

/-- C2: with the wildcard off and an empty entries list, every candidate,
the compiled-in default origin included, is refused (fail closed). -/
theorem C2_emptyEntries_failClosed :
    (∀ x : String, isOriginAllowed false [] x = false) ∧
    isOriginAllowed false [] defaultAllowedOrigin = false :=
  ⟨fun _ => rfl, rfl⟩

/-- C3: with the wildcard on, every candidate is accepted whatever the
entries list, malformed and empty candidates included; normalization is
never consulted (the result does not depend on it). -/
theorem C3_wildcard_alwaysTrue :
    (∀ (entries : List originEntry) (x : String), isOriginAllowed true entries x = true) ∧
    isOriginAllowed true [] "" = true ∧
    isOriginAllowed true [] "http//bad" = true :=
  ⟨fun _ _ => rfl, rfl, rfl⟩

/-- C10: the builder never clears the wildcard flag: entering
`configureAllowedOrigins` with `allowAnyOrigin` already true yields the
wildcard configuration again, for any inputs, and every origin stays
allowed afterwards. -/
theorem C10_wildcard_latched :
    ∀ (current fallback : String),
      configureAllowedOrigins current fallback true = ⟨[], true, "*"⟩ ∧
      ∀ x : String,
        isOriginAllowed (configureAllowedOrigins current fallback true).allowAnyOrigin
          (configureAllowedOrigins current fallback true).entries x = true := by
  intro current fallback
  have h1 : (stage1 fallback true).allowAnyOrigin = true :=
    addOriginLoop_flag_mono _ _ rfl
  have heq : configureAllowedOrigins current fallback true = ⟨[], true, "*"⟩ := by
    rw [configureAllowedOrigins_eq, if_pos h1]
  exact ⟨heq, fun x => by rw [heq]; rfl⟩

/-- C4 (counterexample): with one configured origin and a distinct
fallback origin, the builder puts the fallback entry FIRST, not after the
configured entries as the claim states. -/
theorem C4_counterexample :
    (configureAllowedOrigins "https://a.example.com" "https://b.example.com" false).entries.map
      (fun e => e.raw) = ["https://b.example.com", "https://a.example.com"] ∧
    ¬ (configureAllowedOrigins "https://a.example.com" "https://b.example.com" false).entries.map
      (fun e => e.raw) = ["https://a.example.com", "https://b.example.com"] := by
  exact ⟨by decide, by decide⟩

/-- C4 (amended): whenever the wildcard does not fire, the entries
produced from the fallback list alone form an initial segment of the
final entries list — the builder processes the fallback candidates first
and appends configured-list entries after them — and the fallback is
processed whether or not the configured list is empty. -/
theorem C4_fallback_processed_first :
    (∀ (current fallback : String),
      (configureAllowedOrigins current fallback false).allowAnyOrigin = false →
      ∃ t, (configureAllowedOrigins current fallback false).entries =
        (stage1 fallback false).entries ++ t) ∧
    (configureAllowedOrigins "https://a.example.com" "https://b.example.com" false).entries.map
      (fun e => e.raw) = ["https://b.example.com", "https://a.example.com"] ∧
    (configureAllowedOrigins "" "https://b.example.com" false).entries.map
      (fun e => e.raw) = ["https://b.example.com"] := by
  refine ⟨?_, by decide, by decide⟩
  intro current fallback h
  rw [configureAllowedOrigins_eq] at h ⊢
  by_cases h1 : (stage1 fallback false).allowAnyOrigin = true
  · rw [if_pos h1] at h; cases h
  · rw [if_neg h1] at h ⊢
    by_cases h2 : (stage2 current fallback false).allowAnyOrigin = true
    · rw [if_pos h2] at h; cases h
    · rw [if_neg h2] at h ⊢
      by_cases h3 : (stage3 current fallback false).allowAnyOrigin = true
      · rw [if_pos h3] at h; cases h
      · rw [if_neg h3] at h ⊢
        by_cases h4 : (stage3 current fallback false).entries = []
        · rw [if_pos h4]
          obtain ⟨t, ht⟩ := stage3_entries_extend current fallback false
          rw [h4] at ht
          have hs1 : (stage1 fallback false).entries = [] :=
            (List.append_eq_nil.mp ht.symm).1
          exact ⟨[], by simp [hs1]⟩
        · rw [if_neg h4]
          exact stage3_entries_extend current fallback false

/-- Closed instance of the amended C4 at a concrete input. -/
theorem C4_witness :
    ∃ t, (configureAllowedOrigins "https://a.example.com" "https://b.example.com" false).entries =
      (stage1 "https://b.example.com" false).entries ++ t :=
  C4_fallback_processed_first.1 "https://a.example.com" "https://b.example.com" (by decide)

/-- C6: a `*` candidate anywhere in the configured list or the fallback
list makes the builder return the wildcard configuration: flag on, no
entries (the fallback included), display string `*`. -/
theorem C6_wildcard_precedence :
    ∀ (current fallback : String),
      ("*" ∈ splitOriginCandidates current ∨ "*" ∈ splitOriginCandidates fallback) →
      configureAllowedOrigins current fallback false = ⟨[], true, "*"⟩ := by
  intro current fallback h
  rw [configureAllowedOrigins_eq]
  by_cases h1 : (stage1 fallback false).allowAnyOrigin = true
  · rw [if_pos h1]
  · rcases h with hc | hf
    · have h2 : (stage2 current fallback false).allowAnyOrigin = true :=
        addOriginLoop_star _ _ hc
      rw [if_neg h1, if_pos h2]
    · exfalso
      apply h1
      have hne : splitOriginCandidates fallback ≠ [] := by
        intro he
        rw [he] at hf
        cases hf
      have heff : effectiveFallbackCandidates fallback = splitOriginCandidates fallback := by
        unfold effectiveFallbackCandidates
        simp [hne]
      show (addOriginLoop ⟨[], [], false⟩ (effectiveFallbackCandidates fallback)).allowAnyOrigin = true
      rw [heff]
      exact addOriginLoop_star _ _ hf

/-- Closed instance of C6: a lone `*` in the configured list. -/
theorem C6_witness :
    configureAllowedOrigins "*" "https://fallback.example" false = ⟨[], true, "*"⟩ :=
  C6_wildcard_precedence "*" "https://fallback.example" (Or.inl (by decide))

/-- C7: the builder output holds at most one entry per distinct normalized
value (the normalized fields are pairwise distinct) and each entry's
`normalized` is the normalization of its preserved `raw`; concretely, of
two configured spellings of the same origin only the first is kept, with
its original spelling. -/
theorem C7_normalized_unique :
    (∀ (current fallback : String) (b0 : Bool),
      ((configureAllowedOrigins current fallback b0).entries.map
        (fun e => e.normalized)).Nodup ∧
      ∀ e ∈ (configureAllowedOrigins current fallback b0).entries,
        normalizeOrigin e.raw = Except.ok e.normalized) ∧
    (configureAllowedOrigins "https://A.example.com, https://a.example.com:443"
      "https://b.example.com" false).entries.map (fun e => e.raw) =
      ["https://b.example.com", "https://A.example.com"] := by
  refine ⟨?_, by decide⟩
  intro current fallback b0
  rw [configureAllowedOrigins_eq]
  obtain ⟨hnd, _, hraw⟩ := stage3_good current fallback b0
  split
  · exact ⟨List.nodup_nil, by intro e he; cases he⟩
  · split
    · exact ⟨List.nodup_nil, by intro e he; cases he⟩
    · split
      · exact ⟨List.nodup_nil, by intro e he; cases he⟩
      · split
        · exact ⟨List.nodup_nil, by intro e he; cases he⟩
        · exact ⟨hnd, hraw⟩

/-- Closed instance of C7: the first surviving entry of a concrete build
normalizes to its own `normalized` field. -/
theorem C7_witness :
    normalizeOrigin "https://b.example.com" = Except.ok "https://b.example.com" :=
  (C7_normalized_unique.1 "https://A.example.com, https://a.example.com:443"
      "https://b.example.com" false).2
    ⟨"https://b.example.com", "https://b.example.com"⟩ (by decide)

/-- C8: a candidate whose normalization fails is dropped without touching
the builder state — nothing is aborted and no other entry is removed —
and a build containing an invalid candidate still returns the remaining
entries; an empty entries list is an ordinary return value of the (total)
builder, as the empty-input build shows. -/
theorem C8_invalid_candidate_dropped :
    (∀ (st : BuilderState) (c e : String),
      trimSpace c ≠ "*" → normalizeOrigin (trimSpace c) = Except.error e →
      addOrigin st c = st) ∧
    (configureAllowedOrigins "invalid-origin, https://a.example.com"
      "https://fallback.example" false).entries.map (fun e => e.normalized) =
      ["https://fallback.example", "https://a.example.com"] := by
  refine ⟨?_, by decide⟩
  intro st c e hstar herr
  unfold addOrigin addOriginTrimmed
  by_cases h0 : trimSpace c = ""
  · rw [if_pos h0]
  · rw [if_neg h0, if_neg hstar, herr]

/-- Closed instance of C8: dropping `invalid-origin` leaves the state
untouched. -/
theorem C8_witness :
    addOrigin ⟨[], [], false⟩ "invalid-origin" = ⟨[], [], false⟩ :=
  C8_invalid_candidate_dropped.1 ⟨[], [], false⟩ "invalid-origin" "origen incompleto"
    (by decide) (by decide)

/-- C9: every token produced by the splitter is non-empty and already
trimmed; an empty or all-whitespace input yields the empty list; runs of
separators collapse; order is preserved and duplicates are kept. -/
theorem C9_split_tokens :
    (∀ (s t : String), t ∈ splitOriginCandidates s → t ≠ "" ∧ trimSpace t = t) ∧
    (∀ s : String, trimSpace s = "" → splitOriginCandidates s = []) ∧
    splitOriginCandidates "a,,;\n\tb" = ["a", "b"] ∧
    splitOriginCandidates "b , a , b" = ["b", "a", "b"] ∧
    splitOriginCandidates "" = [] ∧
    splitOriginCandidates " \t " = [] := by
  refine ⟨?_, ?_, by decide, by decide, by decide, by decide⟩
  · intro s t ht
    unfold splitOriginCandidates at ht
    split at ht
    · cases ht
    · obtain ⟨cand, hcand, hmap⟩ := List.mem_filterMap.mp ht
      dsimp only at hmap
      split at hmap
      · cases hmap
      · rename_i hne
        have heq : trimSpace cand = t := Option.some.inj hmap
        subst heq
        exact ⟨hne, trimSpace_idem cand⟩
  · intro s hs
    unfold splitOriginCandidates
    rw [if_pos hs]

/-- Closed instance of C9 at a concrete split. -/
theorem C9_witness : ("a" : String) ≠ "" ∧ trimSpace "a" = "a" :=
  C9_split_tokens.1 "a, b" "a" (by decide)

/-- Spec-side statement of the normalizer's success value (§4.1 of the
spec): `scheme://host[:port]` with lower-cased scheme and host, the port
segment omitted when absent or equal to the scheme's default (80 for
http, 443 for https), included verbatim otherwise. Stated independently
of the code's formulation, for comparison with `normalizedFromURL`. -/
def normalizeSpecString (u : GoURL) : String :=
  let scheme := toLower u.scheme
  let host := toLower (urlHostname u.host)
  let port := urlPort u.host
  scheme ++ "://" ++ host ++
    (if port = "" ∨ (scheme = "http" ∧ port = "80") ∨ (scheme = "https" ∧ port = "443")
     then "" else ":" ++ port)

theorem normalizedFromURL_eq_spec (u : GoURL) :
    normalizedFromURL u = normalizeSpecString u := by
  unfold normalizedFromURL normalizeSpecString
  dsimp only
  by_cases hp : urlPort u.host = ""
  · rw [if_neg (by rintro ⟨h, _⟩; exact h hp), if_pos (Or.inl hp)]
    rw [String.append_empty]
  · by_cases hd : (toLower u.scheme = "http" ∧ urlPort u.host = "80") ∨
        (toLower u.scheme = "https" ∧ urlPort u.host = "443")
    · rw [if_neg (by rintro ⟨_, h⟩; exact h hd), if_pos (Or.inr hd)]
      rw [String.append_empty]
    · rw [if_pos ⟨hp, hd⟩, if_neg (by rintro (h | h); exacts [hp h, hd h])]
      simp [String.append_assoc]

/-- C5: `normalizeOrigin` trims its input (it is invariant under
trimming), succeeds exactly when the trimmed string parses as a URI with a
non-empty scheme and host, and on success returns the spec's
`scheme://host[:port]` (lower-cased, default port omitted, other ports
kept verbatim); the named edge cases behave as stated. -/
theorem C5_normalize_contract :
    (∀ s : String, normalizeOrigin s = normalizeOrigin (trimSpace s)) ∧
    (∀ s : String,
      (∃ r, normalizeOrigin s = Except.ok r) ↔
      (∃ u, urlParse (trimSpace s) = Except.ok u ∧ u.scheme ≠ "" ∧ u.host ≠ "")) ∧
    (∀ (s : String) (u : GoURL), urlParse (trimSpace s) = Except.ok u →
      u.scheme ≠ "" → u.host ≠ "" →
      normalizeOrigin s = Except.ok (normalizeSpecString u)) ∧
    normalizeOrigin "https://Example.com:443" = Except.ok "https://example.com" ∧
    normalizeOrigin "https://example.com:8443" = Except.ok "https://example.com:8443" ∧
    (∃ e, normalizeOrigin "not-a-url" = Except.error e) ∧
    (∃ e, normalizeOrigin "https://" = Except.error e) := by
  refine ⟨?_, ?_, ?_, by decide, by decide,
    ⟨"origen incompleto", by decide⟩, ⟨"origen incompleto", by decide⟩⟩
  · intro s
    unfold normalizeOrigin
    rw [trimSpace_idem]
  · intro s
    constructor
    · rintro ⟨r, hr⟩
      unfold normalizeOrigin at hr
      cases hp : urlParse (trimSpace s) with
      | error e => rw [hp] at hr; cases hr
      | ok u =>
        rw [hp] at hr
        dsimp only at hr
        by_cases hc : u.scheme = "" ∨ u.host = ""
        · rw [if_pos hc] at hr; cases hr
        · push_neg at hc
          exact ⟨u, rfl, hc.1, hc.2⟩
    · rintro ⟨u, hu, hs2, hh2⟩
      unfold normalizeOrigin
      rw [hu]
      dsimp only
      rw [if_neg (by rintro (h | h); exacts [hs2 h, hh2 h])]
      exact ⟨normalizedFromURL u, rfl⟩
  · intro s u hu hs2 hh2
    unfold normalizeOrigin
    rw [hu]
    dsimp only
    rw [if_neg (by rintro (h | h); exacts [hs2 h, hh2 h])]
    rw [normalizedFromURL_eq_spec]

/-- Closed instance of C5: a non-default port is kept verbatim and the
host is lower-cased. -/
theorem C5_witness :
    normalizeOrigin "https://Example.com:8443" =
      Except.ok (normalizeSpecString ⟨"https", "Example.com:8443"⟩) :=
  C5_normalize_contract.2.2.1 "https://Example.com:8443" ⟨"https", "Example.com:8443"⟩
    (by decide) (by decide) (by decide)
